import Mathlib

/-!
Verification development for the nisin binary-structure decoder.

The Python source (src/nisin/nisin.py, primitive.py, struct.py) is shallowly
embedded below.  Machine integers are modelled as `Nat`/`Int` with explicit
two's-complement arithmetic; Python `bytes` buffers are `List Nat`; fallible
code returns `Option`/`Except`.  Python floats are modelled by their IEEE bit
patterns (`Nat`), since `struct.pack`/`unpack` only move the bits and no float
arithmetic occurs in the source.
-/

namespace Nisin

/-- Wire-format codes of the `struct` module that the primitives emit:
`c b B ? h H i I q Q f d x` (with `boolc` standing for `?`). -/
inductive FmtCode where
  | c | b | B | boolc | h | H | i | I | q | Q | f | d | x
deriving DecidableEq, Repr

/-- Fixed byte width of a wire code (identical in standard and native mode on
the platforms CPython supports for these codes). -/
def FmtCode.width : FmtCode → Nat
  | .c | .b | .B | .boolc | .x => 1
  | .h | .H => 2
  | .i | .I | .f => 4
  | .q | .Q | .d => 8

/-- Padding codes consume bytes but produce no unpacked value. -/
def FmtCode.isPad : FmtCode → Bool
  | .x => true
  | _ => false

/-- Python `struct.calcsize` in standard (endian-prefixed) mode: the plain sum of the
codes' widths.  This is the number of bytes `BinaryParser.parse` actually
consumes, since it unpacks with an explicit `<`/`>` prefix. -/
def calcsize (l : List FmtCode) : Nat := (l.map FmtCode.width).sum

/-- Round `off` up to a multiple of `a`. -/
def alignTo (off a : Nat) : Nat := ((off + a - 1) / a) * a

/-- Python `struct.calcsize` in native mode (no endian prefix), as called by
`BinaryParser.get_format`: each field is aligned to its natural alignment,
which equals its width for all codes used here (x86-64 / AArch64 ABI). -/
def calcsizeNative (l : List FmtCode) : Nat :=
  l.foldl (fun acc code => alignTo acc code.width + code.width) 0

/-- The requested byte order, `little` or `big`; other strings make
`BinaryParser.parse` raise before touching the buffer, so they are outside the
model's input type. -/
inductive Endian where
  | little | big
deriving DecidableEq, Repr

/-- Reorder wire bytes to little-endian-first order (an involution). -/
def Endian.arrange : Endian → List Nat → List Nat
  | .little, bs => bs
  | .big, bs => bs.reverse

/-- A raw scalar as returned by `struct.unpack`: Python `int` for the integer
codes, `bool` for `?`, a length-1 `bytes` for `c`, a float for `f`/`d`
(modelled by its 32- or 64-bit pattern). -/
inductive Scalar where
  | int (i : Int)
  | pybool (b : Bool)
  | bytes1 (b : Nat)
  | f32 (bits : Nat)
  | f64 (bits : Nat)
deriving DecidableEq, Repr

/-- Little-endian base-256 digits of `v`, exactly `w` bytes. -/
def natToBytesLE : Nat → Nat → List Nat
  | 0, _ => []
  | w + 1, v => v % 256 :: natToBytesLE w (v / 256)

/-- Read a little-endian base-256 digit list back into a `Nat`. -/
def natFromBytesLE : List Nat → Nat
  | [] => 0
  | byte :: rest => byte + 256 * natFromBytesLE rest

/-- Two's-complement reading of an unsigned `w`-byte value. -/
def toSigned (w u : Nat) : Int :=
  if u < 2 ^ (8 * w - 1) then (u : Int) else (u : Int) - 2 ^ (8 * w)

/-- Decode the `width c` wire bytes `bs` (in buffer order) for code `c`,
mirroring what `struct.unpack` returns for that code. -/
def decodeCode (code : FmtCode) (e : Endian) (bs : List Nat) : Scalar :=
  match code with
  | .B | .H | .I | .Q => .int (natFromBytesLE (e.arrange bs))
  | .b | .h | .i | .q => .int (toSigned code.width (natFromBytesLE (e.arrange bs)))
  | .c => .bytes1 (bs.headD 0)
  | .boolc => .pybool (bs.headD 0 != 0)
  | .f => .f32 (natFromBytesLE (e.arrange bs))
  | .d => .f64 (natFromBytesLE (e.arrange bs))
  | .x => .int 0

/-- Pack an unsigned integer into `w` bytes; `struct.error` (= `none`) outside
the representable range. -/
def packUnsigned (w : Nat) (e : Endian) (i : Int) : Option (List Nat) :=
  if 0 ≤ i ∧ i < 2 ^ (8 * w) then some (e.arrange (natToBytesLE w i.toNat)) else none

/-- Pack a signed integer into `w` bytes, two's complement. -/
def packSigned (w : Nat) (e : Endian) (i : Int) : Option (List Nat) :=
  if -(2 ^ (8 * w - 1)) ≤ i ∧ i < 2 ^ (8 * w - 1) then
    some (e.arrange (natToBytesLE w (if 0 ≤ i then i.toNat else (i + 2 ^ (8 * w)).toNat)))
  else none

/-- Pack one scalar for one wire code.  A scalar of the wrong Python type (or
out of range) is rejected, matching `struct.pack`'s strict typing for these
codes (`?` in CPython would coerce arbitrary objects by truthiness; a value is
considered to *match* the format only if it is what `unpack` can produce). -/
def packCode (code : FmtCode) (e : Endian) (v : Scalar) : Option (List Nat) :=
  match code, v with
  | .B, .int i => packUnsigned 1 e i
  | .H, .int i => packUnsigned 2 e i
  | .I, .int i => packUnsigned 4 e i
  | .Q, .int i => packUnsigned 8 e i
  | .b, .int i => packSigned 1 e i
  | .h, .int i => packSigned 2 e i
  | .i, .int i => packSigned 4 e i
  | .q, .int i => packSigned 8 e i
  | .c, .bytes1 byte => if byte < 256 then some [byte] else none
  | .boolc, .pybool b => some [if b then 1 else 0]
  | .f, .f32 bits => if bits < 2 ^ 32 then some (e.arrange (natToBytesLE 4 bits)) else none
  | .d, .f64 bits => if bits < 2 ^ 64 then some (e.arrange (natToBytesLE 8 bits)) else none
  | _, _ => none

/-- Python `struct.pack` over a whole format: one scalar per non-padding code, a zero
byte for each `x`; fails on a count mismatch or unrepresentable value. -/
def packFlat : List FmtCode → Endian → List Scalar → Option (List Nat)
  | [], _, [] => some []
  | [], _, _ :: _ => none
  | .x :: codes, e, vs => (packFlat codes e vs).map (0 :: ·)
  | code :: codes, e, v :: vs =>
    match packCode code e v, packFlat codes e vs with
    | some bs, some rest => some (bs ++ rest)
    | _, _ => none
  | _ :: _, _, [] => none

/-- Walk a format over a byte stream, producing one scalar per non-padding
code (padding codes skip their byte). -/
def unpackCodes : List FmtCode → Endian → List Nat → List Scalar
  | [], _, _ => []
  | .x :: codes, e, bs => unpackCodes codes e (bs.drop 1)
  | code :: codes, e, bs =>
    decodeCode code e (bs.take code.width) :: unpackCodes codes e (bs.drop code.width)

/-- Python `struct.unpack_from(fmt, buf, offset)` with an endian prefix: checks the
buffer holds `calcsize` bytes past `offset`, then unpacks. -/
def unpackFrom (codes : List FmtCode) (e : Endian) (buf : List Nat) (offset : Nat) :
    Option (List Scalar) :=
  if offset + calcsize codes ≤ buf.length then some (unpackCodes codes e (buf.drop offset))
  else none

/-- The pointer/size bit width accepted by the code paths under test (other
values make the size-dependent primitives raise `ValueError`). -/
inductive Bit where
  | b32 | b64
deriving DecidableEq, Repr

/-- The primitive type descriptors of src/nisin/primitive.py. -/
inductive NisinType where
  | Char | S8 | U8 | Bool | S16 | U16 | S32 | U32 | S64 | U64
  | Float | Double | SSize | USize | Pointer | Padding
deriving DecidableEq, Repr

/-- The `get_format` of each primitive class: its wire code, bit-width dependent
for `ssize_t`/`size_t`/pointers. -/
def NisinType.get_format : NisinType → Bit → FmtCode
  | .Char, _ => .c
  | .S8, _ => .b
  | .U8, _ => .B
  | .Bool, _ => .boolc
  | .S16, _ => .h
  | .U16, _ => .H
  | .S32, _ => .i
  | .U32, _ => .I
  | .S64, _ => .q
  | .U64, _ => .Q
  | .Float, _ => .f
  | .Double, _ => .d
  | .SSize, .b32 => .i
  | .SSize, .b64 => .q
  | .USize, .b32 => .I
  | .USize, .b64 => .Q
  | .Pointer, .b32 => .I
  | .Pointer, .b64 => .Q
  | .Padding, _ => .x

/-- The `primitive` registry: type-name string to descriptor. -/
def primitive : List (String × NisinType) :=
  [("char", .Char), ("signed char", .S8), ("unsigned char", .U8), ("_Bool", .Bool),
   ("short", .S16), ("unsigned short", .U16), ("int", .S32), ("unsigned int", .U32),
   ("long", .S32), ("unsigned long", .U32), ("long long", .S64),
   ("unsigned long long", .U64), ("ssize_t", .SSize), ("size_t", .USize),
   ("float", .Float), ("double", .Double),
   ("BYTE", .U8), ("WORD", .U16), ("DWORD", .U32), ("QWORD", .U64),
   ("LONG", .S32), ("LONGLONG", .S64), ("ULONGLONG", .U64),
   ("__s8", .S8), ("__s16", .S16), ("__s32", .S32), ("__s64", .S64),
   ("__u8", .U8), ("__u16", .U16), ("__u32", .U32), ("__u64", .U64),
   ("bool", .Bool), ("s8", .S8), ("s16", .S16), ("s32", .S32), ("s64", .S64),
   ("u8", .U8), ("u16", .U16), ("u32", .U32), ("u64", .U64),
   ("padding", .Padding)]

/-- A label table built by `set_equates`: the `labels`/`flags` mapping of a
field record (numeric value to symbolic name) plus the mode flag.  The Python
code wraps it in a dynamically created `Enum`/`Flag`; value lookup walks the
members, first match wins, exactly as `find?` below does. -/
structure Equates where
  isFlag : Bool
  pairs : List (Nat × String)
deriving DecidableEq, Repr

mutual
/-- The `value` slot of a `StructData`: a raw scalar, a Python `str` decoded
from a char array (kept as its UTF-8 bytes), a list, or an ordered dict. -/
inductive SDVal where
  | scalar (s : Scalar)
  | text (bs : List Nat)
  | seq (l : List StructData)
  | dict (l : List (String × StructData))

/-- A `StructData(value, fmt, equates)` after `__init__` has resolved the
display format to a concrete string. -/
inductive StructData where
  | mk (value : SDVal) (fmt : String) (equates : Option Equates)
end

def StructData.value : StructData → SDVal
  | .mk v _ _ => v

def StructData.fmt : StructData → String
  | .mk _ f _ => f

def StructData.equates : StructData → Option Equates
  | .mk _ _ e => e

/-- Python `isinstance(value, int)` on a decoded scalar (`bool` is an `int`
subtype in Python). -/
def SDVal.isIntLike : SDVal → Bool
  | .scalar (.int _) => true
  | .scalar (.pybool _) => true
  | _ => false

/-- Constructor `StructData.__init__`: a `None` format defaults to `"#x"` for integer
values and `""` otherwise. -/
def StructData.make (v : SDVal) (fmt : Option String) (eq : Option Equates) : StructData :=
  .mk v (match fmt with
         | some f => f
         | none => if v.isIntLike then "#x" else "") eq

/-- A compiled `BinaryParser` node: display name, resolved primitive (if any),
pointer depth, array dims, children (for struct nodes), the `_fmt` display
hint and the `_equates` label table. -/
inductive BinaryParser where
  | mk (type_name : String) (type : Option NisinType) (ptr_depth : Nat) (dim : List Nat)
      (children : Option (List (String × BinaryParser))) (fmtHint : Option String)
      (equates : Option Equates)

def BinaryParser.type_name : BinaryParser → String
  | .mk n _ _ _ _ _ _ => n

def BinaryParser.type : BinaryParser → Option NisinType
  | .mk _ t _ _ _ _ _ => t

def BinaryParser.ptr_depth : BinaryParser → Nat
  | .mk _ _ p _ _ _ _ => p

def BinaryParser.dim : BinaryParser → List Nat
  | .mk _ _ _ d _ _ _ => d

def BinaryParser.children : BinaryParser → Option (List (String × BinaryParser))
  | .mk _ _ _ _ cs _ _ => cs

def BinaryParser.fmtHint : BinaryParser → Option String
  | .mk _ _ _ _ _ f _ => f

def BinaryParser.equates : BinaryParser → Option Equates
  | .mk _ _ _ _ _ _ e => e

/-- Assignment `bp._fmt = ...` (setting of the display hint on a freshly built node). -/
def BinaryParser.withFmt : BinaryParser → Option String → BinaryParser
  | .mk n t p d cs _ e, f => .mk n t p d cs f e

/-- Method `bp.set_equates(...)` (assignment of the label table). -/
def BinaryParser.withEquates : BinaryParser → Option Equates → BinaryParser
  | .mk n t p d cs f _, e => .mk n t p d cs f e

/-- Python `"".join(fmts * dim)`: the base format repeated `n` times. -/
def listRepeat {α : Type} : Nat → List α → List α
  | 0, _ => []
  | n + 1, l => l ++ listRepeat n l

mutual
/-- The flat format string computed by `BinaryParser.get_format`: pointer or
primitive wire code, or the concatenation of the children's formats, the whole
repeated `dim[0]*dim[1]*...` times. -/
def fmtCodes : BinaryParser → Bit → List FmtCode
  | .mk _ t p dim cs _ _, bit =>
    let base :=
      if 0 < p then [NisinType.get_format .Pointer bit]
      else
        match t with
        | some ty => [ty.get_format bit]
        | none =>
          match cs with
          | some l => fmtCodesChildren l bit
          | none => []
    listRepeat (dim.foldl (· * ·) 1) base

def fmtCodesChildren : List (String × BinaryParser) → Bit → List FmtCode
  | [], _ => []
  | child :: rest, bit => fmtCodes child.2 bit ++ fmtCodesChildren rest bit
end

/-- Method `BinaryParser.get_format(bit)`: the format together with the size the
source reports for it — `struct.calcsize` *without* an endian prefix, i.e.
native-alignment mode. -/
def BinaryParser.get_format (bp : BinaryParser) (bit : Bit) : List FmtCode × Nat :=
  (fmtCodes bp bit, calcsizeNative (fmtCodes bp bit))

/-- Python `list.pop()`: removes and returns the last element. -/
def popEnd (l : List Scalar) : Option (Scalar × List Scalar) :=
  match l.reverse with
  | [] => none
  | v :: rest => some (v, rest.reverse)

/-- Python `bytes.decode()` validity: `True` iff the byte list is well-formed UTF-8
(RFC 3629, as CPython's strict utf-8 codec checks). -/
def utf8Valid : List Nat → Bool
  | [] => true
  | byte :: rest =>
    if byte ≤ 0x7F then utf8Valid rest
    else if 0xC2 ≤ byte ∧ byte ≤ 0xDF then
      match rest with
      | b1 :: r => (0x80 ≤ b1 && b1 ≤ 0xBF) && utf8Valid r
      | [] => false
    else if byte = 0xE0 then
      match rest with
      | b1 :: b2 :: r => (0xA0 ≤ b1 && b1 ≤ 0xBF) && (0x80 ≤ b2 && b2 ≤ 0xBF) && utf8Valid r
      | _ => false
    else if (0xE1 ≤ byte ∧ byte ≤ 0xEC) ∨ byte = 0xEE ∨ byte = 0xEF then
      match rest with
      | b1 :: b2 :: r =>
        (0x80 ≤ b1 && b1 ≤ 0xBF) && (0x80 ≤ b2 && b2 ≤ 0xBF) && utf8Valid r
      | _ => false
    else if byte = 0xED then
      match rest with
      | b1 :: b2 :: r => (0x80 ≤ b1 && b1 ≤ 0x9F) && (0x80 ≤ b2 && b2 ≤ 0xBF) && utf8Valid r
      | _ => false
    else if byte = 0xF0 then
      match rest with
      | b1 :: b2 :: b3 :: r =>
        (0x90 ≤ b1 && b1 ≤ 0xBF) && (0x80 ≤ b2 && b2 ≤ 0xBF) && (0x80 ≤ b3 && b3 ≤ 0xBF)
          && utf8Valid r
      | _ => false
    else if 0xF1 ≤ byte ∧ byte ≤ 0xF3 then
      match rest with
      | b1 :: b2 :: b3 :: r =>
        (0x80 ≤ b1 && b1 ≤ 0xBF) && (0x80 ≤ b2 && b2 ≤ 0xBF) && (0x80 ≤ b3 && b3 ≤ 0xBF)
          && utf8Valid r
      | _ => false
    else if byte = 0xF4 then
      match rest with
      | b1 :: b2 :: b3 :: r =>
        (0x80 ≤ b1 && b1 ≤ 0x8F) && (0x80 ≤ b2 && b2 ≤ 0xBF) && (0x80 ≤ b3 && b3 ≤ 0xBF)
          && utf8Valid r
      | _ => false
    else false

/-- Statement `d = data.pop()` followed by `StructData(d, fmt, equates)`: the common body
of the pointer and primitive branches of `asign_data` (an empty pop is an
IndexError). -/
def popScalar (f : Option String) (eq : Option Equates) (data : List Scalar) :
    Option (StructData × List Scalar) :=
  match popEnd data with
  | some (v, rest) => some (.make (.scalar v) f eq, rest)
  | none => none

/-- Python `b"".join(x.value for x in d)`: every row of a 1-D char array must hold a
length-1 `bytes` value; anything else is a `TypeError` in the source. -/
def charJoin : List StructData → Option (List Nat)
  | [] => some []
  | sd :: rest =>
    match sd.value with
    | .scalar (.bytes1 byte) => (charJoin rest).map (byte :: ·)
    | _ => none

mutual
/-- Method `BinaryParser.asign_data(data, dim=...)`: the recursive reassembly.  The
decoded scalars arrive *reversed* and every leaf slot does `data.pop()` from
the tail; the remaining stack is threaded through and returned.  `none` models
an uncaught exception (IndexError on an empty pop, TypeError/UnicodeDecodeError
in the char-array join, ValueError on an untyped node). -/
def asignData (bp : BinaryParser) (dim : List Nat) (data : List Scalar) :
    Option (StructData × List Scalar) :=
  match dim with
  | d :: ds =>
    match asignRows bp ds d data with
    | none => none
    | some (rows, data') =>
      if bp.type = some NisinType.Char ∧ ds = [] then
        match charJoin rows with
        | some bs =>
          if utf8Valid bs then some (.make (.text bs) bp.fmtHint bp.equates, data') else none
        | none => none
      else some (.make (.seq rows) bp.fmtHint bp.equates, data')
  | [] =>
    match bp with
    | .mk _ t p _ cs f eq =>
      if 0 < p then popScalar f eq data
      else
        match t with
        | some _ => popScalar f eq data
        | none =>
          match cs with
          | some l =>
            match asignChildren l data with
            | some (entries, rest) => some (.make (.dict entries) f eq, rest)
            | none => none
          | none => none
termination_by (sizeOf bp, dim.length, 0)

/-- The `for i in range(dim[0])` loop of the array branch. -/
def asignRows (bp : BinaryParser) (ds : List Nat) (n : Nat) (data : List Scalar) :
    Option (List StructData × List Scalar) :=
  match n with
  | 0 => some ([], data)
  | n + 1 =>
    match asignData bp ds data with
    | none => none
    | some (sd, data') =>
      match asignRows bp ds n data' with
      | none => none
      | some (rows, data'') => some (sd :: rows, data'')
termination_by (sizeOf bp, ds.length, n + 1)

/-- The `for field_name, c in self.children.items()` loop: padding-typed
children are skipped without consuming a value. -/
def asignChildren (l : List (String × BinaryParser)) (data : List Scalar) :
    Option (List (String × StructData) × List Scalar) :=
  match l with
  | [] => some ([], data)
  | child :: rest =>
    if child.2.type = some NisinType.Padding then asignChildren rest data
    else
      match asignData child.2 child.2.dim data with
      | none => none
      | some (sd, data') =>
        match asignChildren rest data' with
        | none => none
        | some (entries, data'') => some ((child.1, sd) :: entries, data'')
termination_by (sizeOf l, 0, 0)
decreasing_by all_goals (cases child <;> decreasing_tactic)
end

/-- Front-consumption counterpart of `popScalar` for the forward assembler. -/
def takeScalar (f : Option String) (eq : Option Equates) (vals : List Scalar) :
    Option (StructData × List Scalar) :=
  match vals with
  | v :: rest => some (.make (.scalar v) f eq, rest)
  | [] => none

mutual
/-- Forward-cursor mirror of `asign_data`: consumes the scalar list from the
*front* (the unpack order) instead of popping the reversed list from the tail,
and returns the assembled value with the unconsumed suffix.  It is proved
below to agree with `asignData`; its success on `(vals, producing rest = [])`
is the precise sense in which a scalar list "matches" a node's leaf slots. -/
def buildSD (bp : BinaryParser) (dim : List Nat) (vals : List Scalar) :
    Option (StructData × List Scalar) :=
  match dim with
  | d :: ds =>
    match buildRows bp ds d vals with
    | none => none
    | some (rows, vals') =>
      if bp.type = some NisinType.Char ∧ ds = [] then
        match charJoin rows with
        | some bs =>
          if utf8Valid bs then some (.make (.text bs) bp.fmtHint bp.equates, vals') else none
        | none => none
      else some (.make (.seq rows) bp.fmtHint bp.equates, vals')
  | [] =>
    match bp with
    | .mk _ t p _ cs f eq =>
      if 0 < p then takeScalar f eq vals
      else
        match t with
        | some _ => takeScalar f eq vals
        | none =>
          match cs with
          | some l =>
            match buildChildren l vals with
            | some (entries, rest) => some (.make (.dict entries) f eq, rest)
            | none => none
          | none => none
termination_by (sizeOf bp, dim.length, 0)

def buildRows (bp : BinaryParser) (ds : List Nat) (n : Nat) (vals : List Scalar) :
    Option (List StructData × List Scalar) :=
  match n with
  | 0 => some ([], vals)
  | n + 1 =>
    match buildSD bp ds vals with
    | none => none
    | some (sd, vals') =>
      match buildRows bp ds n vals' with
      | none => none
      | some (rows, vals'') => some (sd :: rows, vals'')
termination_by (sizeOf bp, ds.length, n + 1)

def buildChildren (l : List (String × BinaryParser)) (vals : List Scalar) :
    Option (List (String × StructData) × List Scalar) :=
  match l with
  | [] => some ([], vals)
  | child :: rest =>
    if child.2.type = some NisinType.Padding then buildChildren rest vals
    else
      match buildSD child.2 child.2.dim vals with
      | none => none
      | some (sd, vals') =>
        match buildChildren rest vals' with
        | none => none
        | some (entries, vals'') => some ((child.1, sd) :: entries, vals'')
termination_by (sizeOf l, 0, 0)
decreasing_by all_goals (cases child <;> decreasing_tactic)
end

mutual
/-- The leaves of a Value Tree in field/array order.  A text value contributes
the characters it was joined from (one `c`-code scalar per byte). -/
def sdLeaves : StructData → List Scalar
  | .mk v _ _ => sdvLeaves v

def sdvLeaves : SDVal → List Scalar
  | .scalar s => [s]
  | .text bs => bs.map Scalar.bytes1
  | .seq l => sdLeavesList l
  | .dict l => sdLeavesMap l

def sdLeavesList : List StructData → List Scalar
  | [] => []
  | sd :: rest => sdLeaves sd ++ sdLeavesList rest

def sdLeavesMap : List (String × StructData) → List Scalar
  | [] => []
  | (_, sd) :: rest => sdLeaves sd ++ sdLeavesMap rest
end

/-- Decode-time failure: a short buffer (`struct.error` from `unpack_from`),
or any exception escaping `asign_data`. -/
inductive PErr where
  | truncated | valueErr
deriving DecidableEq, Repr

/-- Method `BinaryParser.parse(buf, bit, endian, offset)`: build the format, length
check against the *standard* size (the endian prefix is prepended before
`unpack_from`), unpack, reverse, reassemble. -/
def BinaryParser.parse (bp : BinaryParser) (buf : List Nat) (bit : Bit) (e : Endian)
    (offset : Nat) : Except PErr StructData :=
  match unpackFrom (fmtCodes bp bit) e buf offset with
  | none => .error .truncated
  | some scalars =>
    match asignData bp bp.dim scalars.reverse with
    | some (sd, _) => .ok sd
    | none => .error .valueErr

/-! ### Schema compilation (`StructsDefinitions`) -/

/-- Numeric value of a digit string. -/
def digitsVal (ds : List Char) : Nat :=
  ds.foldl (fun acc ch => acc * 10 + (ch.toNat - '0'.toNat)) 0

/-- Python `re.finditer(r"\[([0-9]+)\]", ty)`: all non-overlapping bracketed decimal
groups, left to right.  The second argument is `none` outside a candidate
match and `some acc` while collecting digits after a `[`; a failed candidate
resumes scanning at the character that broke it, as the regex engine does. -/
def scanDims : List Char → Option (List Char) → List Nat
  | [], _ => []
  | ch :: rest, none =>
    if ch = '[' then scanDims rest (some []) else scanDims rest none
  | ch :: rest, some acc =>
    if ch.isDigit then scanDims rest (some (acc ++ [ch]))
    else if ch = ']' ∧ acc ≠ [] then digitsVal acc :: scanDims rest none
    else if ch = '[' then scanDims rest (some [])
    else scanDims rest none

/-- Python `ty.split("[")[0]`. -/
def takeBeforeBracket : List Char → List Char
  | [] => []
  | ch :: rest => if ch = '[' then [] else ch :: takeBeforeBracket rest

/-- Python `ty.strip("* ")`. -/
def stripStarSpace (l : List Char) : List Char :=
  ((l.dropWhile fun ch => ch = '*' ∨ ch = ' ').reverse.dropWhile
    fun ch => ch = '*' ∨ ch = ' ').reverse

/-- One field specification `{field_name: entry}` value: a bare type string or
a record with `type` and optional `format`/`labels`/`flags` keys (`none`
models an absent key). -/
inductive FieldEntry where
  | plain (ty : String)
  | record (ty : String) (format : Option String) (labels : Option (List (Nat × String)))
      (flags : Option (List (Nat × String)))

/-- A field spec dict; well-formed specs hold exactly one entry, but the dict
may hold any number (and is emptied in place by `popitem`). -/
abbrev StructField := List (String × FieldEntry)

/-- A schema definition: an alias string or an ordered field list. -/
inductive StructDef where
  | alias (s : String)
  | fields (l : List StructField)

/-- The loaded schema: type name to definition, insertion-ordered. -/
abbrev StructDefs := List (String × StructDef)

/-- Assignment `self.structs[target] = ...` (the observable effect of the in-place
`popitem` mutation on the shared field dicts). -/
def updateDef (structs : StructDefs) (name : String) (d : StructDef) : StructDefs :=
  structs.map fun p => if p.1 = name then (name, d) else p

/-- Compile-time failure: `KeyError` for a missing name, `ValueError` for a
malformed field spec. -/
inductive BuildErr where
  | keyErr | valueErr
deriving DecidableEq, Repr

mutual
/-- Method `StructsDefinitions.build_parser(target)`.  The result is `none` when the
given fuel runs out: the source has *no* fuel, so a family of `none` results
for every fuel models non-termination of the corresponding source call.  On
success the (possibly mutated) schema is returned alongside the parser. -/
def buildParserS : Nat → StructDefs → String → Option (Except BuildErr (BinaryParser × StructDefs))
  | 0, _, _ => none
  | fuel + 1, structs, target =>
    match structs.lookup target with
    | none => some (.error .keyErr)
    | some t => resolveDef fuel structs target t

/-- The `while isinstance(t, str)` loop.  Note the loop body re-reads
`self.structs[target]` — not `self.structs[t]` — exactly as the source does. -/
def resolveDef : Nat → StructDefs → String → StructDef →
    Option (Except BuildErr (BinaryParser × StructDefs))
  | 0, _, _, _ => none
  | fuel + 1, structs, target, t =>
    match t with
    | .alias s =>
      match primitive.lookup s with
      | some ty => some (.ok (.mk s (some ty) 0 [] none none none, structs))
      | none =>
        match structs.lookup target with
        | some t' => resolveDef fuel structs target t'
        | none => some (.error .keyErr)
    | .fields fl => buildFields fuel structs target [] fl []

/-- The field loop of `build_parser`: length check, `popitem` (which empties
the field dict inside the schema before the child is compiled), child
compilation via `convert_type`, format/label attachment. -/
def buildFields : Nat → StructDefs → String → List StructField → List StructField →
    List (String × BinaryParser) → Option (Except BuildErr (BinaryParser × StructDefs))
  | _, structs, target, _, [], acc =>
    some (.ok (.mk target none 0 [] (some acc) none none, structs))
  | 0, _, _, _, _ :: _, _ => none
  | fuel + 1, structs, target, done, fld :: rest, acc =>
    match fld with
    | [(fname, entry)] =>
      let structs1 := updateDef structs target (.fields (done ++ [[]] ++ rest))
      match entry with
      | .plain tystr =>
        match convert_typeS fuel structs1 tystr with
        | none => none
        | some (.error e) => some (.error e)
        | some (.ok (bp, structs2)) =>
          buildFields fuel structs2 target (done ++ [[]]) rest (acc ++ [(fname, bp)])
      | .record tystr fmt labels flags =>
        match convert_typeS fuel structs1 tystr with
        | none => none
        | some (.error e) => some (.error e)
        | some (.ok (bp, structs2)) =>
          let bp1 := bp.withFmt fmt
          let bp2 :=
            match labels with
            | some pairs => bp1.withEquates (some ⟨false, pairs⟩)
            | none =>
              match flags with
              | some pairs => bp1.withEquates (some ⟨true, pairs⟩)
              | none => bp1
          buildFields fuel structs2 target (done ++ [[]]) rest (acc ++ [(fname, bp2)])
    | _ => some (.error .valueErr)

/-- Method `StructsDefinitions.convert_type(ty)`: array-dim extraction, pointer
detection, primitive lookup, else a recursive `build_parser` call. -/
def convert_typeS : Nat → StructDefs → String →
    Option (Except BuildErr (BinaryParser × StructDefs))
  | 0, _, _ => none
  | fuel + 1, structs, ty =>
    let dim := scanDims ty.data none
    let ty1 := if dim ≠ [] then String.mk (takeBeforeBracket ty.data) else ty
    if ty1.data.contains '*' then
      some (.ok (.mk (String.mk (stripStarSpace ty1.data)) none (ty1.data.count '*') dim
        none none none, structs))
    else
      match primitive.lookup ty1 with
      | some t => some (.ok (.mk ty1 (some t) 0 dim none none none, structs))
      | none => buildParserS fuel structs ty1
end

/-! ### Value Tree rendering (`StructData.to_dict` / `to_json`) -/

/-- A Python value as returned by `_to_dict`, ready for `json.dumps`:
int/bool/str/float/bytes scalars (floats still as bit patterns, Python `str`
from char arrays as UTF-8 bytes) and nested lists/dicts. -/
inductive PyJson where
  | int (i : Int)
  | pybool (b : Bool)
  | str (s : String)
  | pystr (bs : List Nat)
  | f32 (bits : Nat)
  | f64 (bits : Nat)
  | bytes (b : Nat)
  | arr (l : List PyJson)
  | obj (l : List (String × PyJson))

/-- A raw scalar carried into the `_to_dict` output unchanged. -/
def Scalar.raw : Scalar → PyJson
  | .int i => .int i
  | .pybool b => .pybool b
  | .bytes1 b => .bytes b
  | .f32 bits => .f32 bits
  | .f64 bits => .f64 bits

/-- Python `self.equates(self.value)` member lookup: the first member whose numeric
value equals the scalar (Python `True == 1`, `False == 0`).  Float and bytes
values never equal the integer label keys modelled here. -/
def equatesLookup (eq : Equates) (s : Scalar) : Option String :=
  match s with
  | .int i => (eq.pairs.find? fun p => (p.1 : Int) = i).map Prod.snd
  | .pybool b => (eq.pairs.find? fun p => p.1 = if b then 1 else 0).map Prod.snd
  | _ => none

mutual
/-- Method `StructData._to_dict`: recursive conversion, substituting a label for a
scalar with a matching label-table entry and falling back to the raw value. -/
def toDictVal : StructData → PyJson
  | .mk v _ eq =>
    match v with
    | .dict l => .obj (toDictMap l)
    | .seq l => .arr (toDictList l)
    | .scalar s =>
      match eq with
      | some e =>
        match equatesLookup e s with
        | some label => .str label
        | none => s.raw
      | none => s.raw
    | .text bs => .pystr bs

def toDictList : List StructData → List PyJson
  | [] => []
  | sd :: rest => toDictVal sd :: toDictList rest

def toDictMap : List (String × StructData) → List (String × PyJson)
  | [] => []
  | (name, sd) :: rest => (name, toDictVal sd) :: toDictMap rest
end

/-- Method `StructData.to_dict`: an empty dict unless the root value is a dict. -/
def StructData.to_dict (sd : StructData) : List (String × PyJson) :=
  match sd.value with
  | .dict l => toDictMap l
  | _ => []

/-- JSON string quoting as `json.dumps` emits it for plain printable ASCII;
keys and labels containing characters that need escaping are outside the
modelled fragment (`none`). -/
def jsonQuote (s : String) : Option String :=
  if s.data.all fun ch => 0x20 ≤ ch.toNat ∧ ch.toNat ≤ 0x7E ∧ ch ≠ '"' ∧ ch ≠ '\\' then
    some ("\"" ++ s ++ "\"")
  else none

mutual
/-- Python `json.dumps` with its default separators `", "` and `": "`.  Serializing
a `bytes` value raises `TypeError` in Python (`none` here); float repr and
non-ASCII text are likewise outside the modelled fragment. -/
def renderJson : PyJson → Option String
  | .int i => some (toString i)
  | .pybool b => some (if b then "true" else "false")
  | .str s => jsonQuote s
  | .pystr _ => none
  | .f32 _ => none
  | .f64 _ => none
  | .bytes _ => none
  | .arr l =>
    match renderList l with
    | some parts => some ("[" ++ String.intercalate ", " parts ++ "]")
    | none => none
  | .obj l =>
    match renderObj l with
    | some parts => some ("\x7b" ++ String.intercalate ", " parts ++ "\x7d")
    | none => none

def renderList : List PyJson → Option (List String)
  | [] => some []
  | v :: rest =>
    match renderJson v, renderList rest with
    | some s, some ss => some (s :: ss)
    | _, _ => none

def renderObj : List (String × PyJson) → Option (List String)
  | [] => some []
  | (k, v) :: rest =>
    match jsonQuote k, renderJson v, renderObj rest with
    | some ks, some s, some ss => some ((ks ++ ": " ++ s) :: ss)
    | _, _, _ => none
end

/-- Method `StructData.to_json`: `json.dumps(self.to_dict())`. -/
def StructData.to_json (sd : StructData) : Option String :=
  renderJson (.obj sd.to_dict)

/-! ### Concrete instances and claim-side expected values -/

/-- A scalar primitive parser node, exactly what `convert_type` builds for a
bare primitive type string (with optional array dims). -/
def primNode (tyname : String) (ty : NisinType) (ds : List Nat) : BinaryParser :=
  .mk tyname (some ty) 0 ds none none none

/-- A struct parser node over primitive fields, as `build_parser` returns for
an ordered field list of bare primitive type strings. -/
def fieldsNode (tn : String) (cs : List (String × NisinType × List Nat)) : BinaryParser :=
  .mk tn none 0 [] (some (cs.map fun x => (x.1, primNode x.1 x.2.1 x.2.2))) none none

/-- Expected decode of a primitive-field struct per the padding claim: walk
the fields in order against the buffer suffix; a padding field emits no entry
but advances the byte position by its declared width (its dim product); every
other (scalar) field decodes at the accumulated position. -/
def specFieldVals (bit : Bit) (e : Endian) :
    List (String × NisinType × List Nat) → List Nat → List (String × StructData)
  | [], _ => []
  | x :: rest, bs =>
    if x.2.1 = NisinType.Padding then
      specFieldVals bit e rest (bs.drop (x.2.2.foldl (· * ·) 1))
    else
      (x.1, .make (.scalar (decodeCode (x.2.1.get_format bit) e
          (bs.take (x.2.1.get_format bit).width))) none none) ::
        specFieldVals bit e rest (bs.drop (x.2.1.get_format bit).width)

/-- Struct `{a: u16, s: char[2]}` — exercises integers and the char-array join. -/
def rtNode : BinaryParser := fieldsNode "T" [("a", .U16, []), ("s", .Char, [2])]

/-- Its decode of `f4 01 61 62` (little-endian). -/
def rtSD : StructData :=
  .mk (.dict [("a", .mk (.scalar (.int 500)) "#x" none),
              ("s", .mk (.text [97, 98]) "" none)]) "" none

/-- A bare `padding` scalar node, as `build_parser` returns for the schema
`{P: "padding"}` with target `P`. -/
def padNode : BinaryParser := primNode "padding" .Padding []

/-- Struct `{a: u8, b: u32}` — native alignment pads its reported size to 8 while
the packed format `parse` consumes is 5 bytes. -/
def byteIntNode : BinaryParser := fieldsNode "S" [("a", .U8, []), ("b", .U32, [])]

/-- Its decode of the 5-byte buffer `01 02 00 00 00` (little-endian). -/
def byteIntSD : StructData :=
  .mk (.dict [("a", .mk (.scalar (.int 1)) "#x" none),
              ("b", .mk (.scalar (.int 2)) "#x" none)]) "" none

/-- An array node `char[3]`. -/
def charArrNode : BinaryParser := primNode "char" .Char [3]

/-- Its decode of `68 69 21` (`"hi!"`). -/
def charArrSD : StructData := .mk (.text [104, 105, 33]) "" none

/-- Schema `{A: "B", B: "u8"}`: a one-step alias chain that should resolve to
`u8` but makes the source's alias loop spin forever. -/
def aliasChainSchema : StructDefs := [("A", .alias "B"), ("B", .alias "u8")]

/-- Schema `{Point: [{x: "u32"}]}`. -/
def mutSchema : StructDefs := [("Point", .fields [[("x", .plain "u32")]])]

/-- The same schema after one `build_parser("Point")` call: `popitem` emptied
the field dict in place. -/
def mutSchemaAfter : StructDefs := [("Point", .fields [[]])]

/-- The compiled node for `Point` in `mutSchema`. -/
def mutPointNode : BinaryParser :=
  .mk "Point" none 0 [] (some [("x", .mk "u32" (some .U32) 0 [] none none none)]) none none

/-- A field record carrying *both* a `labels` and a `flags` mapping. -/
def bothLabelsSchema : StructDefs :=
  [("T", .fields [[("f", .record "u8" none (some [(0, "A")]) (some [(1, "B")]))]])]

/-- What compiling `bothLabelsSchema`'s `T` actually returns: success, with a
plain (non-flag) label table from `labels`; `flags` is ignored. -/
def bothLabelsNode : BinaryParser :=
  .mk "T" none 0 []
    (some [("f", .mk "u8" (some .U8) 0 [] none none (some ⟨false, [(0, "A")]⟩))]) none none

/-- The spec's example schema
`{u8: "u8", Point: [{x: "u32"}, {y: "u32"}, {flag: {type: "u8", labels: {0: "OFF", 1: "ON"}}}]}`. -/
def pointSchema : StructDefs :=
  [("u8", .alias "u8"),
   ("Point", .fields
     [[("x", .plain "u32")], [("y", .plain "u32")],
      [("flag", .record "u8" none (some [(0, "OFF"), (1, "ON")]) none)]])]

/-- The compiled `Point` parser node. -/
def pointNode : BinaryParser :=
  .mk "Point" none 0 []
    (some [("x", .mk "u32" (some .U32) 0 [] none none none),
           ("y", .mk "u32" (some .U32) 0 [] none none none),
           ("flag", .mk "u8" (some .U8) 0 [] none none
             (some ⟨false, [(0, "OFF"), (1, "ON")]⟩))]) none none

/-- The decode of `01 00 00 00 02 00 00 00 01` against `Point` (32-bit,
little-endian). -/
def pointSD : StructData :=
  .mk (.dict [("x", .mk (.scalar (.int 1)) "#x" none),
              ("y", .mk (.scalar (.int 2)) "#x" none),
              ("flag", .mk (.scalar (.int 1)) "#x"
                (some ⟨false, [(0, "OFF"), (1, "ON")]⟩))]) "" none

/-! ### Byte-level round-trip lemmas -/

theorem natToBytesLE_length (w v : Nat) : (natToBytesLE w v).length = w := by
  induction w generalizing v with
  | zero => rfl
  | succ w ih => simp [natToBytesLE, ih]

theorem natFromBytesLE_natToBytesLE (w v : Nat) (h : v < 256 ^ w) :
    natFromBytesLE (natToBytesLE w v) = v := by
  induction w generalizing v with
  | zero =>
    simp only [pow_zero] at h
    simp [natToBytesLE, natFromBytesLE]
    omega
  | succ w ih =>
    have hp : 256 ^ (w + 1) = 256 ^ w * 256 := pow_succ 256 w
    simp only [natToBytesLE, natFromBytesLE]
    rw [ih (v / 256) (by omega)]
    omega

theorem Endian.arrange_arrange (e : Endian) (bs : List Nat) :
    e.arrange (e.arrange bs) = bs := by
  cases e <;> simp [Endian.arrange]

theorem Endian.arrange_length (e : Endian) (bs : List Nat) :
    (e.arrange bs).length = bs.length := by
  cases e <;> simp [Endian.arrange]

theorem two_pow_eq_256_pow (w : Nat) : (2 : Nat) ^ (8 * w) = 256 ^ w := by
  rw [pow_mul]
  norm_num

theorem packUnsigned_spec (w : Nat) (e : Endian) (i : Int) (bs : List Nat)
    (h : packUnsigned w e i = some bs) :
    bs.length = w ∧ natFromBytesLE (e.arrange bs) = i.toNat ∧ 0 ≤ i := by
  unfold packUnsigned at h
  split at h
  case isTrue hr =>
    cases h
    refine ⟨by rw [Endian.arrange_length, natToBytesLE_length], ?_, hr.1⟩
    rw [Endian.arrange_arrange]
    apply natFromBytesLE_natToBytesLE
    have h2 : ((2 ^ (8 * w) : Nat) : Int) = 2 ^ (8 * w) := by push_cast; ring
    have h3 : (2 : Nat) ^ (8 * w) = 256 ^ w := two_pow_eq_256_pow w
    omega
  case isFalse => exact absurd h (by simp)

theorem toSigned_twosComp (w : Nat) (hw : 0 < w) (i : Int)
    (h1 : -(2 ^ (8 * w - 1)) ≤ i) (h2 : i < 2 ^ (8 * w - 1)) :
    toSigned w (if 0 ≤ i then i.toNat else (i + 2 ^ (8 * w)).toNat) = i := by
  have hsp : (2 : Int) ^ (8 * w) = 2 ^ (8 * w - 1) * 2 := by
    rw [← pow_succ]
    congr 1
    omega
  have hc1 : ((2 ^ (8 * w - 1) : Nat) : Int) = 2 ^ (8 * w - 1) := by push_cast; ring
  have hc2 : ((2 ^ (8 * w) : Nat) : Int) = 2 ^ (8 * w) := by push_cast; ring
  rcases le_or_lt 0 i with hpos | hneg
  · rw [if_pos hpos]
    unfold toSigned
    rw [if_pos (by omega)]
    exact Int.toNat_of_nonneg hpos
  · rw [if_neg (by omega)]
    unfold toSigned
    rw [if_neg (by omega)]
    omega

theorem packSigned_spec (w : Nat) (hw : 0 < w) (e : Endian) (i : Int) (bs : List Nat)
    (h : packSigned w e i = some bs) :
    bs.length = w ∧ toSigned w (natFromBytesLE (e.arrange bs)) = i := by
  unfold packSigned at h
  split at h
  case isTrue hr =>
    cases h
    have hsp : (2 : Int) ^ (8 * w) = 2 ^ (8 * w - 1) * 2 := by
      rw [← pow_succ]
      congr 1
      omega
    have hc1 : ((2 ^ (8 * w - 1) : Nat) : Int) = 2 ^ (8 * w - 1) := by push_cast; ring
    have hc2 : ((2 ^ (8 * w) : Nat) : Int) = 2 ^ (8 * w) := by push_cast; ring
    have h3 : (2 : Nat) ^ (8 * w) = 256 ^ w := two_pow_eq_256_pow w
    refine ⟨by rw [Endian.arrange_length, natToBytesLE_length], ?_⟩
    rw [Endian.arrange_arrange]
    rw [natFromBytesLE_natToBytesLE _ _ (by split <;> omega)]
    exact toSigned_twosComp w hw i hr.1 hr.2
  case isFalse => exact absurd h (by simp)

/-- Per-code inverse: a scalar accepted by `packCode` occupies exactly the
code's width and decodes back to itself. -/
theorem packCode_spec (code : FmtCode) (e : Endian) (v : Scalar) (bs : List Nat)
    (h : packCode code e v = some bs) :
    bs.length = code.width ∧ decodeCode code e bs = v := by
  cases code <;> cases v <;> simp only [packCode] at h <;>
    try exact Option.noConfusion h
  case B.int i =>
    obtain ⟨hl, hv, hnn⟩ := packUnsigned_spec 1 e i bs h
    exact ⟨hl, by simp [decodeCode, hv, Int.toNat_of_nonneg hnn]⟩
  case H.int i =>
    obtain ⟨hl, hv, hnn⟩ := packUnsigned_spec 2 e i bs h
    exact ⟨hl, by simp [decodeCode, hv, Int.toNat_of_nonneg hnn]⟩
  case I.int i =>
    obtain ⟨hl, hv, hnn⟩ := packUnsigned_spec 4 e i bs h
    exact ⟨hl, by simp [decodeCode, hv, Int.toNat_of_nonneg hnn]⟩
  case Q.int i =>
    obtain ⟨hl, hv, hnn⟩ := packUnsigned_spec 8 e i bs h
    exact ⟨hl, by simp [decodeCode, hv, Int.toNat_of_nonneg hnn]⟩
  case b.int i =>
    obtain ⟨hl, hv⟩ := packSigned_spec 1 (by omega) e i bs h
    exact ⟨hl, by simp [decodeCode, FmtCode.width] at hv ⊢; rw [hv]⟩
  case h.int i =>
    obtain ⟨hl, hv⟩ := packSigned_spec 2 (by omega) e i bs h
    exact ⟨hl, by simp [decodeCode, FmtCode.width] at hv ⊢; rw [hv]⟩
  case i.int i =>
    obtain ⟨hl, hv⟩ := packSigned_spec 4 (by omega) e i bs h
    exact ⟨hl, by simp [decodeCode, FmtCode.width] at hv ⊢; rw [hv]⟩
  case q.int i =>
    obtain ⟨hl, hv⟩ := packSigned_spec 8 (by omega) e i bs h
    exact ⟨hl, by simp [decodeCode, FmtCode.width] at hv ⊢; rw [hv]⟩
  case c.bytes1 byte =>
    split at h
    · cases h
      exact ⟨rfl, by simp [decodeCode]⟩
    · exact absurd h (by simp)
  case boolc.pybool b =>
    cases h
    cases b <;> exact ⟨rfl, by simp [decodeCode]⟩
  case f.f32 bits =>
    split at h
    case isTrue hr =>
      cases h
      refine ⟨by rw [Endian.arrange_length, natToBytesLE_length]; rfl, ?_⟩
      have h3 : (2 : Nat) ^ (8 * 4) = 256 ^ 4 := two_pow_eq_256_pow 4
      simp only [decodeCode, Endian.arrange_arrange]
      rw [natFromBytesLE_natToBytesLE _ _ (by norm_num at h3 ⊢; omega)]
    case isFalse => exact absurd h (by simp)
  case d.f64 bits =>
    split at h
    case isTrue hr =>
      cases h
      refine ⟨by rw [Endian.arrange_length, natToBytesLE_length]; rfl, ?_⟩
      have h3 : (2 : Nat) ^ (8 * 8) = 256 ^ 8 := two_pow_eq_256_pow 8
      simp only [decodeCode, Endian.arrange_arrange]
      rw [natFromBytesLE_natToBytesLE _ _ (by norm_num at h3 ⊢; omega)]
    case isFalse => exact absurd h (by simp)

theorem calcsize_cons (code : FmtCode) (rest : List FmtCode) :
    calcsize (code :: rest) = code.width + calcsize rest := by
  simp [calcsize]

theorem calcsize_append (a b : List FmtCode) :
    calcsize (a ++ b) = calcsize a + calcsize b := by
  simp [calcsize]

/-- Inverse law `unpack(pack(vals)) = vals`, and the packed buffer has the format's
standard size; both hold with arbitrary trailing bytes present. -/
theorem packFlat_spec (codes : List FmtCode) (e : Endian) (vs : List Scalar) (buf : List Nat)
    (h : packFlat codes e vs = some buf) :
    buf.length = calcsize codes ∧ ∀ ext, unpackCodes codes e (buf ++ ext) = vs := by
  induction codes generalizing vs buf with
  | nil =>
    cases vs with
    | nil =>
      cases h
      exact ⟨rfl, fun ext => rfl⟩
    | cons v vs => exact absurd h (by simp [packFlat])
  | cons code rest ih =>
    cases code
    case x =>
      simp only [packFlat] at h
      cases hr : packFlat rest e vs with
      | none => rw [hr] at h; exact absurd h (by simp)
      | some buf' =>
        rw [hr] at h
        cases h
        obtain ⟨hl, hu⟩ := ih vs buf' hr
        refine ⟨by simp [calcsize_cons, FmtCode.width, hl] <;> omega, fun ext => ?_⟩
        simpa [unpackCodes] using hu ext
    all_goals {
      cases vs with
      | nil => exact absurd h (by simp [packFlat])
      | cons v vs' =>
        simp only [packFlat] at h
        cases hp : packCode _ e v with
        | none => rw [hp] at h; exact absurd h (by simp)
        | some bs =>
          cases hr : packFlat rest e vs' with
          | none => rw [hp, hr] at h; exact absurd h (by simp)
          | some buf' =>
            rw [hp, hr] at h
            cases h
            obtain ⟨hbl, hdec⟩ := packCode_spec _ e v bs hp
            obtain ⟨hl, hu⟩ := ih vs' buf' hr
            constructor
            · simp [calcsize_cons, hbl, hl] <;> omega
            · intro ext
              simp only [unpackCodes, List.append_assoc]
              rw [List.take_left' (by rw [hbl]), List.drop_left' (by rw [hbl]), hdec]
              exact congrArg _ (hu ext)
    }

/-! ### Agreement of `asign_data` with the forward-cursor assembler -/

theorem popEnd_append (D : List Scalar) (v : Scalar) : popEnd (D ++ [v]) = some (v, D) := by
  simp [popEnd]

theorem sdLeaves_make (v : SDVal) (f : Option String) (eq : Option Equates) :
    sdLeaves (StructData.make v f eq) = sdvLeaves v := by
  simp [StructData.make, sdLeaves]

theorem charJoin_leaves (rows : List StructData) (bs : List Nat)
    (h : charJoin rows = some bs) : sdLeavesList rows = bs.map Scalar.bytes1 := by
  induction rows generalizing bs with
  | nil =>
    simp only [charJoin] at h
    cases h
    simp [sdLeavesList]
  | cons sd rest ih =>
    cases sd with
    | mk v fm eq =>
      cases v <;> simp only [charJoin, StructData.value] at h <;>
        try exact Option.noConfusion h
      case scalar s =>
        cases s <;> simp only at h <;> try exact Option.noConfusion h
        case bytes1 byte =>
          cases hcj : charJoin rest with
          | none => rw [hcj] at h; exact Option.noConfusion h
          | some bs' =>
            rw [hcj] at h
            cases h
            simp [sdLeavesList, sdLeaves, sdvLeaves, ih bs' hcj]

mutual
theorem buildSD_asign (bp : BinaryParser) (dim : List Nat) (vals : List Scalar)
    (sd : StructData) (rest : List Scalar) (h : buildSD bp dim vals = some (sd, rest)) :
    vals = sdLeaves sd ++ rest ∧
      ∀ D, asignData bp dim (D ++ (sdLeaves sd).reverse) = some (sd, D) := by
  cases dim with
  | cons d ds =>
    cases hbr : buildRows bp ds d vals with
    | none =>
      simp only [buildSD, hbr] at h
      exact Option.noConfusion h
    | some pr =>
      obtain ⟨rows, vals'⟩ := pr
      simp only [buildSD, hbr] at h
      obtain ⟨hsplit, hrows⟩ := buildRows_asign bp ds d vals rows vals' hbr
      by_cases hc : bp.type = some NisinType.Char ∧ ds = []
      · rw [if_pos hc] at h
        cases hcj : charJoin rows with
        | none =>
          simp only [hcj] at h
          exact Option.noConfusion h
        | some bs =>
          simp only [hcj] at h
          by_cases hu : utf8Valid bs = true
          · rw [if_pos hu] at h
            cases h
            have hlv : sdLeavesList rows = bs.map Scalar.bytes1 := charJoin_leaves rows bs hcj
            have hl2 : sdLeaves (StructData.make (SDVal.text bs) bp.fmtHint bp.equates) =
                bs.map Scalar.bytes1 := by simp [sdLeaves_make, sdvLeaves]
            constructor
            · rw [hsplit, hl2, hlv]
            · intro D
              rw [hl2, ← hlv]
              simp only [asignData, hrows D]
              rw [if_pos hc]
              simp only [hcj]
              rw [if_pos hu]
          · rw [if_neg hu] at h
            exact Option.noConfusion h
      · rw [if_neg hc] at h
        cases h
        have hl2 : sdLeaves (StructData.make (SDVal.seq rows) bp.fmtHint bp.equates) =
            sdLeavesList rows := by simp [sdLeaves_make, sdvLeaves]
        constructor
        · rw [hsplit, hl2]
        · intro D
          rw [hl2]
          simp only [asignData, hrows D]
          rw [if_neg hc]
  | nil =>
    cases bp with
    | mk nm t p dimf cs f eq =>
      simp only [buildSD.eq_def] at h
      by_cases hp : 0 < p
      · rw [if_pos hp] at h
        cases vals with
        | nil =>
          simp only [takeScalar] at h
          exact Option.noConfusion h
        | cons v rest' =>
          simp only [takeScalar] at h
          cases h
          have hl2 : sdLeaves (StructData.make (SDVal.scalar v) f eq) = [v] := by
            simp [sdLeaves_make, sdvLeaves]
          refine ⟨by rw [hl2]; rfl, fun D => ?_⟩
          rw [hl2, List.reverse_singleton]
          simp only [asignData.eq_def]
          rw [if_pos hp]
          simp only [popScalar, popEnd_append]
      · rw [if_neg hp] at h
        cases t with
        | some ty =>
          cases vals with
          | nil =>
            simp only [takeScalar] at h
            exact Option.noConfusion h
          | cons v rest' =>
            simp only [takeScalar] at h
            cases h
            have hl2 : sdLeaves (StructData.make (SDVal.scalar v) f eq) = [v] := by
              simp [sdLeaves_make, sdvLeaves]
            refine ⟨by rw [hl2]; rfl, fun D => ?_⟩
            rw [hl2, List.reverse_singleton]
            simp only [asignData.eq_def]
            rw [if_neg hp]
            simp only [popScalar, popEnd_append]
        | none =>
          cases cs with
          | none => exact Option.noConfusion h
          | some l =>
            cases hbc : buildChildren l vals with
            | none =>
              simp only [hbc] at h
              exact Option.noConfusion h
            | some pr =>
              obtain ⟨entries, rest'⟩ := pr
              simp only [hbc] at h
              cases h
              obtain ⟨hsplit, hch⟩ := buildChildren_asign l vals entries rest hbc
              have hl2 : sdLeaves (StructData.make (SDVal.dict entries) f eq) =
                  sdLeavesMap entries := by simp [sdLeaves_make, sdvLeaves]
              refine ⟨by rw [hsplit, hl2], fun D => ?_⟩
              rw [hl2]
              simp only [asignData.eq_def]
              rw [if_neg hp]
              simp only [hch D]
termination_by (sizeOf bp, dim.length, 0)
decreasing_by all_goals (subst_vars; decreasing_tactic)

theorem buildRows_asign (bp : BinaryParser) (ds : List Nat) (n : Nat) (vals : List Scalar)
    (rows : List StructData) (rest : List Scalar)
    (h : buildRows bp ds n vals = some (rows, rest)) :
    vals = sdLeavesList rows ++ rest ∧
      ∀ D, asignRows bp ds n (D ++ (sdLeavesList rows).reverse) = some (rows, D) := by
  cases n with
  | zero =>
    simp only [buildRows] at h
    cases h
    constructor
    · simp [sdLeavesList]
    · intro D
      simp [asignRows, sdLeavesList]
  | succ n =>
    cases hb : buildSD bp ds vals with
    | none =>
      simp only [buildRows, hb] at h
      exact Option.noConfusion h
    | some pr =>
      obtain ⟨sd, vals1⟩ := pr
      simp only [buildRows, hb] at h
      cases hr : buildRows bp ds n vals1 with
      | none =>
        simp only [hr] at h
        exact Option.noConfusion h
      | some pr2 =>
        obtain ⟨rows', vals2⟩ := pr2
        simp only [hr] at h
        cases h
        obtain ⟨hs1, ha1⟩ := buildSD_asign bp ds vals sd vals1 hb
        obtain ⟨hs2, ha2⟩ := buildRows_asign bp ds n vals1 rows' rest hr
        constructor
        · rw [hs1, hs2]
          simp [sdLeavesList, List.append_assoc]
        · intro D
          have hrev : (sdLeavesList (sd :: rows')).reverse =
              (sdLeavesList rows').reverse ++ (sdLeaves sd).reverse := by
            simp [sdLeavesList]
          rw [hrev, ← List.append_assoc]
          simp only [asignRows, ha1 (D ++ (sdLeavesList rows').reverse), ha2 D]
termination_by (sizeOf bp, ds.length, n + 1)
decreasing_by all_goals (subst_vars; decreasing_tactic)

theorem buildChildren_asign (l : List (String × BinaryParser)) (vals : List Scalar)
    (entries : List (String × StructData)) (rest : List Scalar)
    (h : buildChildren l vals = some (entries, rest)) :
    vals = sdLeavesMap entries ++ rest ∧
      ∀ D, asignChildren l (D ++ (sdLeavesMap entries).reverse) = some (entries, D) := by
  cases l with
  | nil =>
    simp only [buildChildren] at h
    cases h
    constructor
    · simp [sdLeavesMap]
    · intro D
      simp [asignChildren, sdLeavesMap]
  | cons hd tl =>
    by_cases hpad : hd.2.type = some NisinType.Padding
    · simp only [buildChildren, if_pos hpad] at h
      obtain ⟨hs, ha⟩ := buildChildren_asign tl vals entries rest h
      refine ⟨hs, fun D => ?_⟩
      simp only [asignChildren]
      rw [if_pos hpad]
      exact ha D
    · cases hb : buildSD hd.2 hd.2.dim vals with
      | none =>
        simp only [buildChildren, if_neg hpad, hb] at h
        exact Option.noConfusion h
      | some pr =>
        obtain ⟨sd, vals1⟩ := pr
        simp only [buildChildren, if_neg hpad, hb] at h
        cases hr : buildChildren tl vals1 with
        | none =>
          simp only [hr] at h
          exact Option.noConfusion h
        | some pr2 =>
          obtain ⟨entries', vals2⟩ := pr2
          simp only [hr] at h
          cases h
          obtain ⟨hs1, ha1⟩ := buildSD_asign hd.2 hd.2.dim vals sd vals1 hb
          obtain ⟨hs2, ha2⟩ := buildChildren_asign tl vals1 entries' rest hr
          constructor
          · rw [hs1, hs2]
            simp [sdLeavesMap, List.append_assoc]
          · intro D
            have hrev : (sdLeavesMap ((hd.1, sd) :: entries')).reverse =
                (sdLeavesMap entries').reverse ++ (sdLeaves sd).reverse := by
              simp [sdLeavesMap]
            rw [hrev, ← List.append_assoc]
            simp only [asignChildren]
            rw [if_neg hpad]
            simp only [ha1 (D ++ (sdLeavesMap entries').reverse), ha2 D]
termination_by (sizeOf l, 0, 0)
decreasing_by all_goals (subst_vars <;> try (cases hd)) <;> decreasing_tactic
end

/-! ### Auxiliary facts about rows, formats and unpacking -/

theorem asignRows_length (bp : BinaryParser) (ds : List Nat) (n : Nat) (data : List Scalar)
    (rows : List StructData) (rest : List Scalar)
    (h : asignRows bp ds n data = some (rows, rest)) : rows.length = n := by
  induction n generalizing data rows rest with
  | zero =>
    simp only [asignRows] at h
    cases h
    rfl
  | succ n ih =>
    cases ha : asignData bp ds data with
    | none =>
      simp only [asignRows, ha] at h
      exact Option.noConfusion h
    | some pr =>
      obtain ⟨sd, data'⟩ := pr
      simp only [asignRows, ha] at h
      cases hr : asignRows bp ds n data' with
      | none =>
        simp only [hr] at h
        exact Option.noConfusion h
      | some pr2 =>
        obtain ⟨rows', data''⟩ := pr2
        simp only [hr] at h
        cases h
        simp [ih data' rows' rest hr]

theorem charJoin_length (rows : List StructData) (bs : List Nat)
    (h : charJoin rows = some bs) : bs.length = rows.length := by
  induction rows generalizing bs with
  | nil =>
    simp only [charJoin] at h
    cases h
    rfl
  | cons sd rest ih =>
    cases sd with
    | mk v fm eq =>
      cases v <;> simp only [charJoin, StructData.value] at h <;>
        try exact Option.noConfusion h
      case scalar s =>
        cases s <;> simp only at h <;> try exact Option.noConfusion h
        case bytes1 byte =>
          cases hcj : charJoin rest with
          | none => rw [hcj] at h; exact Option.noConfusion h
          | some bs' =>
            rw [hcj] at h
            cases h
            simp [ih bs' hcj]

theorem listRepeat_one {α : Type} (l : List α) : listRepeat 1 l = l := by
  simp [listRepeat]

theorem fmtCodes_primNode (tyname : String) (ty : NisinType) (ds : List Nat) (bit : Bit) :
    fmtCodes (primNode tyname ty ds) bit =
      listRepeat (ds.foldl (· * ·) 1) [ty.get_format bit] := by
  simp [primNode, fmtCodes]

theorem fmtCodes_fieldsNode (tn : String) (cs : List (String × NisinType × List Nat))
    (bit : Bit) :
    fmtCodes (fieldsNode tn cs) bit =
      fmtCodesChildren (cs.map fun x => (x.1, primNode x.1 x.2.1 x.2.2)) bit := by
  simp [fieldsNode, fmtCodes, listRepeat]

theorem unpackCodes_repeat_x (k : Nat) (cod : List FmtCode) (e : Endian) (bs : List Nat) :
    unpackCodes (listRepeat k [FmtCode.x] ++ cod) e bs = unpackCodes cod e (bs.drop k) := by
  induction k generalizing bs with
  | zero => simp [listRepeat]
  | succ k ih =>
    have h1 : listRepeat (k + 1) [FmtCode.x] ++ cod =
        FmtCode.x :: (listRepeat k [FmtCode.x] ++ cod) := by simp [listRepeat]
    rw [h1]
    rw [show unpackCodes (FmtCode.x :: (listRepeat k [FmtCode.x] ++ cod)) e bs =
        unpackCodes (listRepeat k [FmtCode.x] ++ cod) e (bs.drop 1) from rfl]
    rw [ih]
    rw [List.drop_drop, Nat.add_comm]

theorem unpackCodes_cons_ne_x (code : FmtCode) (hne : code ≠ .x) (cod : List FmtCode)
    (e : Endian) (bs : List Nat) :
    unpackCodes (code :: cod) e bs =
      decodeCode code e (bs.take code.width) :: unpackCodes cod e (bs.drop code.width) := by
  cases code <;> first | rfl | exact absurd rfl hne

theorem get_format_ne_x (ty : NisinType) (bit : Bit) (h : ty ≠ .Padding) :
    ty.get_format bit ≠ .x := by
  cases ty <;> cases bit <;> first | decide | exact absurd rfl h

/-- Successful `parse` from its two stages: if `unpack_from` yields the scalar
list and `asign_data` reassembles its reversal, `parse` returns the tree.
Stated symbolically so concrete instances never unfold `parse` themselves. -/
theorem parse_ok_of (bp : BinaryParser) (buf : List Nat) (bit : Bit) (e : Endian)
    (off : Nat) (scalars : List Scalar) (sd : StructData) (rest : List Scalar)
    (hu : unpackFrom (fmtCodes bp bit) e buf off = some scalars)
    (ha : asignData bp bp.dim scalars.reverse = some (sd, rest)) :
    bp.parse buf bit e off = .ok sd := by
  simp only [BinaryParser.parse, hu, ha]

/-! ### The claims -/

/-- C1 (counterexample).  A compiled bare-padding node admits the empty value
list for its flat format `"x"`: packing gives the one-byte buffer `00`, but
`parse` raises (IndexError from `data.pop()` on an empty list) instead of
returning a Value Tree with no leaves. -/
theorem C1_roundtrip_counterexample :
    buildParserS 2 [("P", .alias "padding")] "P" =
        some (.ok (padNode, [("P", .alias "padding")])) ∧
      packFlat (fmtCodes padNode .b64) .little [] = some [0] ∧
      padNode.parse [0] .b64 .little 0 = .error .valueErr := by
  have hf : fmtCodes padNode .b64 = [.x] := by
    simp [padNode, primNode, fmtCodes, listRepeat, NisinType.get_format]
  refine ⟨rfl, ?_, ?_⟩
  · rw [hf]
    rfl
  · have hu : unpackFrom (fmtCodes padNode .b64) .little [0] 0 = some [] := by
      rw [hf]
      decide
    simp only [BinaryParser.parse, hu]
    simp [padNode, primNode, BinaryParser.dim, asignData, popScalar, popEnd]

/-- C1 (amended).  For every compiled Parser Node tree, both endiannesses and
every scalar-value list the reassembler accepts exactly (`buildSD` consumes it
with nothing left: one value of the right kind per non-padding leaf slot,
1-D char rows valid UTF-8 — a bare padding node outside a struct field slot
admits no such list), packing the values with the tree's flat format and
parsing the result yields exactly the reassembled Value Tree, whose leaves in
field/array order are the packed values. -/
theorem C1_roundtrip_pack_parse (bp : BinaryParser) (bit : Bit) (e : Endian)
    (vals : List Scalar) (buf : List Nat) (sd : StructData)
    (hmatch : buildSD bp bp.dim vals = some (sd, []))
    (hpack : packFlat (fmtCodes bp bit) e vals = some buf) :
    bp.parse buf bit e 0 = .ok sd ∧ sdLeaves sd = vals := by
  obtain ⟨hsplit, hasn⟩ := buildSD_asign bp bp.dim vals sd [] hmatch
  have hleaves : sdLeaves sd = vals := by
    rw [hsplit]
    simp
  obtain ⟨hlen, hunp⟩ := packFlat_spec (fmtCodes bp bit) e vals buf hpack
  refine ⟨?_, hleaves⟩
  have hunfold : unpackFrom (fmtCodes bp bit) e buf 0 = some vals := by
    rw [unpackFrom, if_pos (by omega)]
    have h2 := hunp []
    rw [List.append_nil] at h2
    simp [h2]
  have ha2 : asignData bp bp.dim vals.reverse = some (sd, []) := by
    have h3 := hasn []
    rw [hleaves] at h3
    simpa using h3
  simp only [BinaryParser.parse, hunfold, ha2]

/-- C5 (counterexample).  For `{a: u8, b: u32}` at 32-bit, `get_format`
reports 8 bytes (native alignment), so the claim demands `TruncatedBuffer` on
a 5-byte buffer at offset 0; `parse` instead succeeds, because `unpack_from`
checks the 5-byte standard size of the `<`-prefixed format. -/
theorem C5_truncated_reported_size_counterexample :
    (byteIntNode.get_format .b32).2 = 8 ∧
      (0 : Nat) + (byteIntNode.get_format .b32).2 > [1, 2, 0, 0, 0].length ∧
      byteIntNode.parse [1, 2, 0, 0, 0] .b32 .little 0 = .ok byteIntSD := by
  have hf : fmtCodes byteIntNode .b32 = [.B, .I] := by
    simp [byteIntNode, fieldsNode, primNode, fmtCodes, fmtCodesChildren, listRepeat,
      NisinType.get_format]
  refine ⟨?_, ?_, ?_⟩
  · simp [BinaryParser.get_format, hf]
    decide
  · simp [BinaryParser.get_format, hf]
    decide
  · have hu : unpackFrom (fmtCodes byteIntNode .b32) .little [1, 2, 0, 0, 0] 0 =
        some [.int 1, .int 2] := by
      rw [hf]
      decide
    have ha : asignData byteIntNode byteIntNode.dim ([Scalar.int 1, Scalar.int 2].reverse) =
        some (byteIntSD, []) := by
      simp only [byteIntNode, fieldsNode, List.map, BinaryParser.dim]
      simp only [asignData, asignChildren, primNode, BinaryParser.type, BinaryParser.dim,
        popScalar, popEnd, List.reverse_cons, List.reverse_nil, List.nil_append,
        List.cons_append]
      simp [byteIntSD, StructData.make, SDVal.isIntLike]
    exact parse_ok_of _ _ _ _ _ _ _ _ hu ha

/-- C5 (amended).  For every node, buffer, bit width, endianness and offset,
`parse` fails with `TruncatedBuffer` if and only if
`byte_offset + packed size > len(buffer)`, where the packed size is the plain
width sum of the flat format (`calcsize` of the `<`/`>`-prefixed format that
`unpack_from` actually checks) — not the native-aligned size `get_format`
reports. -/
theorem C5_truncated_iff_packed_size (bp : BinaryParser) (buf : List Nat) (bit : Bit)
    (e : Endian) (off : Nat) :
    bp.parse buf bit e off = .error .truncated ↔
      buf.length < off + calcsize (fmtCodes bp bit) := by
  by_cases hlen : off + calcsize (fmtCodes bp bit) ≤ buf.length
  · have h1 : unpackFrom (fmtCodes bp bit) e buf off =
        some (unpackCodes (fmtCodes bp bit) e (buf.drop off)) := by
      rw [unpackFrom, if_pos hlen]
    simp only [BinaryParser.parse, h1]
    cases ha : asignData bp bp.dim (unpackCodes (fmtCodes bp bit) e (buf.drop off)).reverse with
    | none =>
      simp only [ha]
      constructor
      · intro hcon
        exact absurd hcon (by simp)
      · intro hcon
        omega
    | some pr =>
      obtain ⟨sd, rest⟩ := pr
      simp only [ha]
      constructor
      · intro hcon
        exact absurd hcon (by simp)
      · intro hcon
        omega
  · have h1 : unpackFrom (fmtCodes bp bit) e buf off = none := by
      rw [unpackFrom, if_neg hlen]
    simp only [BinaryParser.parse, h1]
    constructor
    · intro
      omega
    · intro
      trivial

/-- C2 (evaluation at the failing input).  For `{a: u8, b: u32}` at 32-bit the
size `get_format` reports is `struct.calcsize("BI")` in native-alignment mode,
8, while the sum of the wire codes' fixed widths — which is also the sum of
the two fields' own reported sizes — is 5.  The spec's claim (`byte_size` =
width sum, struct size = sum of field sizes) fails on the code because the
`calcsize` call lacks the endian prefix that `parse`'s `unpack_from` has. -/
theorem C2_get_format_native_size :
    (byteIntNode.get_format .b32).2 = 8 ∧
      calcsize (byteIntNode.get_format .b32).1 = 5 ∧
      ((primNode "u8" .U8 []).get_format .b32).2 +
          ((primNode "u32" .U32 []).get_format .b32).2 = 5 := by
  have hf : fmtCodes byteIntNode .b32 = [.B, .I] := by
    simp [byteIntNode, fieldsNode, primNode, fmtCodes, fmtCodesChildren, listRepeat,
      NisinType.get_format]
  have h8 : fmtCodes (primNode "u8" .U8 []) .b32 = [.B] := by
    simp [primNode, fmtCodes, listRepeat, NisinType.get_format]
  have h32 : fmtCodes (primNode "u32" .U32 []) .b32 = [.I] := by
    simp [primNode, fmtCodes, listRepeat, NisinType.get_format]
  refine ⟨?_, ?_, ?_⟩
  · simp only [BinaryParser.get_format, hf]
    decide
  · simp only [BinaryParser.get_format, hf]
    decide
  · simp only [BinaryParser.get_format, h8, h32]
    decide

theorem specFieldVals_keys (bit : Bit) (e : Endian)
    (cs : List (String × NisinType × List Nat)) : ∀ bs : List Nat,
    (specFieldVals bit e cs bs).map Prod.fst =
      (cs.filter fun x => x.2.1 != NisinType.Padding).map Prod.fst := by
  induction cs with
  | nil =>
    intro bs
    simp [specFieldVals]
  | cons x rest ih =>
    intro bs
    by_cases hpad : x.2.1 = NisinType.Padding
    · simp [specFieldVals, hpad, ih]
    · simp [specFieldVals, hpad, ih]

theorem buildChildren_fields (bit : Bit) (e : Endian)
    (cs : List (String × NisinType × List Nat))
    (hshape : ∀ x ∈ cs, x.2.1 = NisinType.Padding ∨ x.2.2 = []) : ∀ bs : List Nat,
    buildChildren (cs.map fun y => (y.1, primNode y.1 y.2.1 y.2.2))
        (unpackCodes
          (fmtCodesChildren (cs.map fun y => (y.1, primNode y.1 y.2.1 y.2.2)) bit) e bs) =
      some (specFieldVals bit e cs bs, []) := by
  induction cs with
  | nil =>
    intro bs
    simp [buildChildren, fmtCodesChildren, unpackCodes, specFieldVals]
  | cons x rest ih =>
    intro bs
    have hx := hshape x (List.mem_cons_self x rest)
    have hrest : ∀ y ∈ rest, y.2.1 = NisinType.Padding ∨ y.2.2 = [] :=
      fun y hy => hshape y (List.mem_cons_of_mem x hy)
    have hhead : fmtCodesChildren
          ((x.1, primNode x.1 x.2.1 x.2.2) :: rest.map fun y => (y.1, primNode y.1 y.2.1 y.2.2))
          bit =
        listRepeat (x.2.2.foldl (· * ·) 1) [x.2.1.get_format bit] ++
          fmtCodesChildren (rest.map fun y => (y.1, primNode y.1 y.2.1 y.2.2)) bit := by
      simp only [fmtCodesChildren]
      rw [fmtCodes_primNode]
    rw [List.map_cons, hhead]
    by_cases hpad : x.2.1 = NisinType.Padding
    · have hskip : ((x.1, primNode x.1 x.2.1 x.2.2) : String × BinaryParser).2.type =
          some NisinType.Padding := by
        simp [primNode, BinaryParser.type, hpad]
      have hxfmt : x.2.1.get_format bit = .x := by
        rw [hpad]
        cases bit <;> rfl
      rw [hxfmt, unpackCodes_repeat_x]
      simp only [buildChildren, if_pos hskip]
      rw [ih hrest (bs.drop (x.2.2.foldl (· * ·) 1))]
      simp only [specFieldVals, if_pos hpad]
    · have hds : x.2.2 = [] := hx.resolve_left hpad
      have hne : x.2.1.get_format bit ≠ .x := get_format_ne_x _ _ hpad
      have hnotpad : ¬ ((x.1, primNode x.1 x.2.1 x.2.2) : String × BinaryParser).2.type =
          some NisinType.Padding := by
        simp only [primNode, BinaryParser.type, Option.some.injEq]
        exact hpad
      rw [hds]
      rw [show (([] : List Nat).foldl (· * ·) 1) = 1 from rfl, listRepeat_one,
        List.singleton_append]
      rw [unpackCodes_cons_ne_x _ hne]
      simp only [buildChildren, if_neg hnotpad]
      have hbsd : buildSD (primNode x.1 x.2.1 []) (primNode x.1 x.2.1 []).dim
          (decodeCode (x.2.1.get_format bit) e (bs.take (x.2.1.get_format bit).width) ::
            unpackCodes (fmtCodesChildren
              (rest.map fun y => (y.1, primNode y.1 y.2.1 y.2.2)) bit) e
              (bs.drop (x.2.1.get_format bit).width)) =
          some (.make (.scalar (decodeCode (x.2.1.get_format bit) e
              (bs.take (x.2.1.get_format bit).width))) none none,
            unpackCodes (fmtCodesChildren
              (rest.map fun y => (y.1, primNode y.1 y.2.1 y.2.2)) bit) e
              (bs.drop (x.2.1.get_format bit).width)) := by
        simp [primNode, BinaryParser.dim, buildSD.eq_def, takeScalar]
      rw [show ((x.1, primNode x.1 x.2.1 x.2.2) : String × BinaryParser).2 =
          primNode x.1 x.2.1 x.2.2 from rfl, hds] at *
      simp only [hbsd]
      rw [ih hrest (bs.drop (x.2.1.get_format bit).width)]
      simp only [specFieldVals, if_neg hpad]
      rw [hds, if_neg hnotpad]

theorem asignChildren_keys (l : List (String × BinaryParser)) (data : List Scalar)
    (entries : List (String × StructData)) (rest : List Scalar)
    (h : asignChildren l data = some (entries, rest)) :
    entries.map Prod.fst =
      (l.filter fun c => c.2.type != some NisinType.Padding).map Prod.fst := by
  induction l generalizing data entries rest with
  | nil =>
    simp only [asignChildren] at h
    cases h
    simp
  | cons hd tl ih =>
    by_cases hpad : hd.2.type = some NisinType.Padding
    · simp only [asignChildren, if_pos hpad] at h
      rw [ih data entries rest h]
      simp [List.filter_cons, hpad]
    · cases ha : asignData hd.2 hd.2.dim data with
      | none =>
        simp only [asignChildren, if_neg hpad, ha] at h
        exact Option.noConfusion h
      | some pr =>
        obtain ⟨sd, data1⟩ := pr
        simp only [asignChildren, if_neg hpad, ha] at h
        cases hr : asignChildren tl data1 with
        | none =>
          simp only [hr] at h
          exact Option.noConfusion h
        | some pr2 =>
          obtain ⟨entries1, data2⟩ := pr2
          simp only [hr] at h
          cases h
          simp [List.filter_cons, hpad, ih data1 entries1 rest hr]

/-- C7.  For every struct of primitive fields (paddings of any declared width
`padding[k]`, other fields scalar), any buffer long enough, bit width,
endianness and offset: decoding yields a mapping that never contains a
padding field's name — its keys are exactly the non-padding field names in
order — while each remaining field decodes from the byte position shifted by
the widths of everything before it, paddings included (`specFieldVals`).
The last conjunct states key-absence in full generality: in *every*
successful struct reassembly, whatever the children are (nested structs,
arrays, pointers), the output keys are exactly the non-padding child names. -/
theorem C7_padding_fields (tn : String) (cs : List (String × NisinType × List Nat))
    (bit : Bit) (e : Endian) (buf : List Nat) (off : Nat)
    (hshape : ∀ x ∈ cs, x.2.1 = NisinType.Padding ∨ x.2.2 = [])
    (hpad : ∃ x ∈ cs, x.2.1 = NisinType.Padding)
    (hlen : off + calcsize (fmtCodes (fieldsNode tn cs) bit) ≤ buf.length) :
    (fieldsNode tn cs).parse buf bit e off =
      .ok (.mk (.dict (specFieldVals bit e cs (buf.drop off))) "" none) ∧
    (specFieldVals bit e cs (buf.drop off)).map Prod.fst =
      (cs.filter fun x => x.2.1 != NisinType.Padding).map Prod.fst ∧
    (∀ (l : List (String × BinaryParser)) (data : List Scalar)
        (entries : List (String × StructData)) (rest : List Scalar),
      asignChildren l data = some (entries, rest) →
        entries.map Prod.fst =
          (l.filter fun c => c.2.type != some NisinType.Padding).map Prod.fst) := by
  refine ⟨?_, specFieldVals_keys bit e cs (buf.drop off), asignChildren_keys⟩
  have hbc := buildChildren_fields bit e cs hshape (buf.drop off)
  have hbsd : buildSD (fieldsNode tn cs) (fieldsNode tn cs).dim
      (unpackCodes (fmtCodes (fieldsNode tn cs) bit) e (buf.drop off)) =
      some (.mk (.dict (specFieldVals bit e cs (buf.drop off))) "" none, []) := by
    rw [show (fieldsNode tn cs).dim = [] from rfl, fmtCodes_fieldsNode]
    simp only [fieldsNode, buildSD.eq_def]
    simp only [hbc]
    simp [StructData.make, SDVal.isIntLike]
  obtain ⟨hsplit, hasn⟩ := buildSD_asign _ _ _ _ _ hbsd
  have hleaves : sdLeaves (.mk (.dict (specFieldVals bit e cs (buf.drop off))) "" none) =
      unpackCodes (fmtCodes (fieldsNode tn cs) bit) e (buf.drop off) := by
    rw [hsplit]
    simp
  have hu : unpackFrom (fmtCodes (fieldsNode tn cs) bit) e buf off =
      some (unpackCodes (fmtCodes (fieldsNode tn cs) bit) e (buf.drop off)) := by
    rw [unpackFrom, if_pos hlen]
  have ha2 : asignData (fieldsNode tn cs) (fieldsNode tn cs).dim
      (unpackCodes (fmtCodes (fieldsNode tn cs) bit) e (buf.drop off)).reverse =
      some (.mk (.dict (specFieldVals bit e cs (buf.drop off))) "" none, []) := by
    have h3 := hasn []
    rw [hleaves] at h3
    simpa using h3
  simp only [BinaryParser.parse, hu, ha2]

/-- C8.  If a compiled node with a non-empty dim list parses successfully,
the result is a single text value exactly when the element type is the
single-character primitive and there is one dimension (the `d` characters are
joined and decoded); any other element type, or two or more dimensions, gives
a sequence of `d` elements. -/
theorem C8_char_array_decode (bp : BinaryParser) (buf : List Nat) (bit : Bit) (e : Endian)
    (off d : Nat) (ds : List Nat) (sd : StructData)
    (hdim : bp.dim = d :: ds) (h : bp.parse buf bit e off = .ok sd) :
    ((bp.type = some NisinType.Char ∧ ds = []) →
      ∃ bs, sd.value = SDVal.text bs ∧ bs.length = d) ∧
    (¬(bp.type = some NisinType.Char ∧ ds = []) →
      ∃ rows, sd.value = SDVal.seq rows ∧ rows.length = d) := by
  simp only [BinaryParser.parse] at h
  cases hu : unpackFrom (fmtCodes bp bit) e buf off with
  | none =>
    simp only [hu] at h
    exact Except.noConfusion h
  | some scalars =>
    simp only [hu] at h
    cases ha : asignData bp bp.dim scalars.reverse with
    | none =>
      simp only [ha] at h
      exact Except.noConfusion h
    | some pr =>
      obtain ⟨sd', st⟩ := pr
      simp only [ha] at h
      cases h
      rw [hdim] at ha
      cases har : asignRows bp ds d scalars.reverse with
      | none =>
        simp only [asignData, har] at ha
        exact Option.noConfusion ha
      | some pr2 =>
        obtain ⟨rows, st2⟩ := pr2
        simp only [asignData, har] at ha
        by_cases hc : bp.type = some NisinType.Char ∧ ds = []
        · rw [if_pos hc] at ha
          cases hcj : charJoin rows with
          | none =>
            simp only [hcj] at ha
            exact Option.noConfusion ha
          | some bs =>
            simp only [hcj] at ha
            by_cases hv : utf8Valid bs = true
            · rw [if_pos hv] at ha
              cases ha
              refine ⟨fun _ => ⟨bs, ?_, ?_⟩, fun hnc => absurd hc hnc⟩
              · simp [StructData.make, StructData.value]
              · rw [charJoin_length rows bs hcj]
                exact asignRows_length bp ds d scalars.reverse rows st har
            · rw [if_neg hv] at ha
              exact Option.noConfusion ha
        · rw [if_neg hc] at ha
          cases ha
          refine ⟨fun hcc => absurd hcc hc, fun _ => ⟨rows, ?_, ?_⟩⟩
          · simp [StructData.make, StructData.value]
          · exact asignRows_length bp ds d scalars.reverse rows st har

/-- The alias `while` loop re-reads `self.structs[target]` — not
`self.structs[t]` — so after one step it revisits `.alias "B"` forever, with
constant state, for any amount of fuel. -/
theorem resolveDef_aliasChain_stuck (fuel : Nat) :
    resolveDef fuel aliasChainSchema "A" (.alias "B") = none := by
  induction fuel with
  | zero => rfl
  | succ fuel ih =>
    have h1 : primitive.lookup "B" = none := by rfl
    have h2 : aliasChainSchema.lookup "A" = some (.alias "B") := by rfl
    simp only [resolveDef, h1, h2]
    exact ih

/-- C3 (code bug).  On the schema `{A: "B", B: "u8"}`, whose target `A`
resolves transitively to the primitive `u8`, `build_parser("A")` never
terminates (the loop re-reads `structs["A"]` instead of following `t`), and
no `CyclicAlias` error exists anywhere in the code: the model returns
fuel-exhaustion for every fuel. -/
theorem C3_alias_chain_never_terminates :
    ∀ fuel, buildParserS fuel aliasChainSchema "A" = none := by
  intro fuel
  cases fuel with
  | zero => rfl
  | succ fuel =>
    have h2 : aliasChainSchema.lookup "A" = some (.alias "B") := by rfl
    simp only [buildParserS, h2]
    exact resolveDef_aliasChain_stuck fuel

/-- C4 (code bug).  Compiling `Point` from `{Point: [{x: "u32"}]}` succeeds
but `field.popitem()` empties the field dict inside the schema; compiling the
same target again from the mutated schema raises
`ValueError("struct fields must have one entry")` instead of returning an
equal parser. -/
theorem C4_build_parser_mutates_schema :
    buildParserS 4 mutSchema "Point" = some (.ok (mutPointNode, mutSchemaAfter)) ∧
      buildParserS 4 mutSchemaAfter "Point" = some (.error .valueErr) :=
  ⟨rfl, rfl⟩

/-- C6 (counterexample).  For a field record carrying both `labels` and
`flags`, compilation does *not* fail — no `ConflictingLabelSpec` (or any
other) error is raised; it succeeds and attaches a plain (non-flag) label
table built from `labels`. -/
theorem C6_labels_flags_counterexample :
    buildParserS 4 bothLabelsSchema "T" =
      some (.ok (bothLabelsNode, [("T", .fields [[]])])) := rfl

/-- C6 (amended).  Whenever a record field carries both `labels` and `flags`,
`labels` wins: compilation succeeds, the child node receives a non-flag label
table holding exactly the `labels` pairs, and `flags` is ignored. -/
theorem C6_labels_precedence (L F : List (Nat × String)) (fmt : Option String) :
    buildParserS 4 [("T", .fields [[("f", .record "u8" fmt (some L) (some F))]])] "T" =
      some (.ok (.mk "T" none 0 []
          (some [("f", .mk "u8" (some .U8) 0 [] none fmt (some ⟨false, L⟩))]) none none,
        [("T", .fields [[]])])) := rfl

/-- C9.  The spec's end-to-end example: compiling `Point` from
`{u8: "u8", Point: [{x: "u32"}, {y: "u32"}, {flag: {type: "u8", labels: {0:
"OFF", 1: "ON"}}}]}` and decoding `01 00 00 00 02 00 00 00 01` (little-endian,
32-bit) yields `{x: 1, y: 2, flag: 1}` with the `ON`/`OFF` label table on
`flag`; `to_dict` maps `flag` to `"ON"` and `to_json` prints the JSON document
`{"x": 1, "y": 2, "flag": "ON"}` (`json.dumps` default separators). -/
theorem C9_point_example :
    buildParserS 6 pointSchema "Point" =
      some (.ok (pointNode, [("u8", .alias "u8"), ("Point", .fields [[], [], []])])) ∧
    pointNode.parse [1, 0, 0, 0, 2, 0, 0, 0, 1] .b32 .little 0 = .ok pointSD ∧
    pointSD.to_dict = [("x", .int 1), ("y", .int 2), ("flag", .str "ON")] ∧
    pointSD.to_json = some "\x7b\"x\": 1, \"y\": 2, \"flag\": \"ON\"\x7d" := by
  have hdict : pointSD.to_dict = [("x", .int 1), ("y", .int 2), ("flag", .str "ON")] := by
    simp only [pointSD, StructData.to_dict, StructData.value, toDictMap, toDictVal,
      equatesLookup, Scalar.raw]
    norm_num [List.find?]
  refine ⟨rfl, ?_, hdict, ?_⟩
  · have hf : fmtCodes pointNode .b32 = [.I, .I, .B] := by
      simp [pointNode, fmtCodes, fmtCodesChildren, listRepeat, NisinType.get_format]
    have hu : unpackFrom (fmtCodes pointNode .b32) .little [1, 0, 0, 0, 2, 0, 0, 0, 1] 0 =
        some [.int 1, .int 2, .int 1] := by
      rw [hf]
      decide
    have ha : asignData pointNode pointNode.dim
        ([Scalar.int 1, Scalar.int 2, Scalar.int 1].reverse) = some (pointSD, []) := by
      simp only [pointNode, BinaryParser.dim]
      simp only [asignData, asignChildren, BinaryParser.type, BinaryParser.dim,
        popScalar, popEnd, List.reverse_cons, List.reverse_nil, List.nil_append,
        List.cons_append]
      simp [pointSD, StructData.make, SDVal.isIntLike]
    exact parse_ok_of _ _ _ _ _ _ _ _ hu ha
  · have hx : jsonQuote "x" = some "\"x\"" := by decide
    have hy : jsonQuote "y" = some "\"y\"" := by decide
    have hfl : jsonQuote "flag" = some "\"flag\"" := by decide
    have hon : jsonQuote "ON" = some "\"ON\"" := by decide
    simp only [StructData.to_json, hdict, renderJson, renderObj, hx, hy, hfl, hon]
    rfl

/-- C10.  Whenever the root value of a decoded tree is not a mapping (scalar,
text, or top-level sequence), `to_dict` returns the empty dict — discarding
the value entirely — and `to_json` prints exactly `"{}"`. -/
theorem C10_non_mapping_to_json (sd : StructData) (h : ∀ l, sd.value ≠ SDVal.dict l) :
    sd.to_dict = [] ∧ sd.to_json = some "\x7b\x7d" := by
  cases sd with
  | mk v fm eq =>
    have hd : StructData.to_dict (.mk v fm eq) = [] := by
      cases v with
      | dict l => exact absurd rfl (h l)
      | scalar s => rfl
      | text bs => rfl
      | seq l => rfl
    refine ⟨hd, ?_⟩
    simp only [StructData.to_json, hd, renderJson, renderObj]
    rfl

/-! ### Witnesses -/

theorem C1_roundtrip_pack_parse_witness :
    rtNode.parse [244, 1, 97, 98] .b64 .little 0 = .ok rtSD ∧
      sdLeaves rtSD = [.int 500, .bytes1 97, .bytes1 98] := by
  have hutf : utf8Valid [97, 98] = true := by decide
  have hmatch : buildSD rtNode rtNode.dim [.int 500, .bytes1 97, .bytes1 98] =
      some (rtSD, []) := by
    simp only [rtNode, fieldsNode, primNode, BinaryParser.dim, List.map]
    simp only [buildSD, buildChildren, buildRows, takeScalar, BinaryParser.type,
      BinaryParser.dim]
    simp [charJoin, StructData.value, StructData.make, SDVal.isIntLike, hutf, rtSD,
      BinaryParser.fmtHint, BinaryParser.equates]
  have hf : fmtCodes rtNode .b64 = [.H, .c, .c] := by
    simp [rtNode, fieldsNode, primNode, fmtCodes, fmtCodesChildren, listRepeat,
      NisinType.get_format]
  have hpack : packFlat (fmtCodes rtNode .b64) .little [.int 500, .bytes1 97, .bytes1 98] =
      some [244, 1, 97, 98] := by
    rw [hf]
    decide
  exact C1_roundtrip_pack_parse rtNode .b64 .little [.int 500, .bytes1 97, .bytes1 98]
    [244, 1, 97, 98] rtSD hmatch hpack

theorem C7_padding_fields_witness :
    (fieldsNode "W" [("a", .U8, []), ("p", .Padding, [2]), ("b", .U8, [])]).parse
        [5, 9, 9, 7] .b32 .little 0 =
      .ok (.mk (.dict (specFieldVals .b32 .little
        [("a", .U8, []), ("p", .Padding, [2]), ("b", .U8, [])] [5, 9, 9, 7])) "" none) ∧
    specFieldVals .b32 .little [("a", .U8, []), ("p", .Padding, [2]), ("b", .U8, [])]
        [5, 9, 9, 7] =
      [("a", .mk (.scalar (.int 5)) "#x" none), ("b", .mk (.scalar (.int 7)) "#x" none)] := by
  have hf : fmtCodes (fieldsNode "W" [("a", .U8, []), ("p", .Padding, [2]), ("b", .U8, [])])
      .b32 = [.B, .x, .x, .B] := by
    simp [fieldsNode, primNode, fmtCodes, fmtCodesChildren, listRepeat, NisinType.get_format]
  refine ⟨?_, rfl⟩
  refine (C7_padding_fields "W" [("a", .U8, []), ("p", .Padding, [2]), ("b", .U8, [])]
    .b32 .little [5, 9, 9, 7] 0 (by decide) (by decide) ?_).1
  rw [hf]
  decide

theorem C8_char_array_decode_witness :
    charArrNode.parse [104, 105, 33] .b64 .little 0 = .ok charArrSD ∧
      (∃ bs, charArrSD.value = SDVal.text bs ∧ bs.length = 3) := by
  have hutf : utf8Valid [104, 105, 33] = true := by decide
  have hf : fmtCodes charArrNode .b64 = [.c, .c, .c] := by
    simp [charArrNode, primNode, fmtCodes, listRepeat, NisinType.get_format]
  have hu : unpackFrom (fmtCodes charArrNode .b64) .little [104, 105, 33] 0 =
      some [.bytes1 104, .bytes1 105, .bytes1 33] := by
    rw [hf]
    decide
  have hparse : charArrNode.parse [104, 105, 33] .b64 .little 0 = .ok charArrSD := by
    have ha : asignData charArrNode charArrNode.dim
        ([Scalar.bytes1 104, Scalar.bytes1 105, Scalar.bytes1 33].reverse) =
        some (charArrSD, []) := by
      simp only [charArrNode, primNode, BinaryParser.dim]
      simp only [asignData, asignRows, popScalar, popEnd, BinaryParser.type, BinaryParser.dim]
      simp [charJoin, StructData.value, StructData.make, SDVal.isIntLike, hutf, charArrSD,
        BinaryParser.fmtHint, BinaryParser.equates]
    exact parse_ok_of _ _ _ _ _ _ _ _ hu ha
  exact ⟨hparse,
    (C8_char_array_decode charArrNode [104, 105, 33] .b64 .little 0 3 [] charArrSD rfl
      hparse).1 ⟨rfl, rfl⟩⟩

theorem C10_non_mapping_to_json_witness :
    (∀ l, (StructData.mk (.scalar (.int 5)) "#x" none).value ≠ SDVal.dict l) ∧
      (StructData.mk (.scalar (.int 5)) "#x" none).to_dict = [] ∧
      (StructData.mk (.scalar (.int 5)) "#x" none).to_json = some "\x7b\x7d" := by
  have h : ∀ l, (StructData.mk (.scalar (.int 5)) "#x" none).value ≠ SDVal.dict l := by
    intro l hcon
    exact SDVal.noConfusion hcon
  obtain ⟨h1, h2⟩ := C10_non_mapping_to_json _ h
  exact ⟨h, h1, h2⟩

end Nisin
